import Mathlib

set_option autoImplicit false

/-!
Shallow embedding of the mistral.rs execution-pipeline core: the input batch
builder (`mistralrs-core/src/pipeline/inputs_processor.rs`), the per-step
orchestrator (`mistralrs-core/src/pipeline/mod.rs`), the matmul-precision flag
(`mistralrs-core/src/layers.rs`) and the dense KV-cache update.  Tensors are
embedded as (nested) lists; machine integers as `Nat`/`Int`; Rust `Result` as
`Except`; Rust panics as `Option.none`.
-/

namespace MistralCore

/-- Token ids: the `WithDType` scalar parameter `T` is embedded as `Nat`
(`T::zero()` is the neutral pad token `0`). -/
abbrev Tok := Nat

/-- Modelled from the spec: the sentinel "pad slot" value `_PAD_SLOT_ID`
(declared in the `paged_attention` module, which is not among the sources)
marking positions that exist only due to batch padding and must not be
written. Its concrete value is irrelevant to the claims; it is a fixed
negative sentinel distinct from every real slot. -/
def PAD_SLOT_ID : Int := -1

/-- Threshold from `inputs_processor.rs`: `const VIA_F16_TOK_THRESHOLD: usize = 512`. -/
def VIA_F16_TOK_THRESHOLD : Nat := 512

/-- The slice of `Sequence` state read by the batch builder: `Sequence::id`
(used for block-table lookup) and `Sequence::len` (token count). -/
structure Sequence where
  id : Nat
  len : Nat
deriving Repr, DecidableEq

/-- Embeds `PagedAttentionMeta`: sliding window, block size, and the block
engine's per-sequence block tables (sequence id paired with the list of
physical block ids, standing for `block_engine.block_tables`). -/
structure PagedAttentionMeta where
  slidingWindow : Option Nat
  blockSize : Nat
  blockTables : List (Nat × List Nat)
deriving Repr, DecidableEq

/-- Lookup of `block_engine.block_tables.get(seq.id())`. -/
def PagedAttentionMeta.tableFor (m : PagedAttentionMeta) (sid : Nat) : Option (List Nat) :=
  (m.blockTables.find? (fun p => p.1 == sid)).map Prod.snd

/-- Embeds the row-padding step of `_make_tensor_with_pad`: right-pad every row
to `maxLen` with `pad` (the subsequent `Tensor::cat`/`reshape` keeps rows). -/
def padRows {α : Type} (x : List (List α)) (maxLen : Nat) (pad : α) : List (List α) :=
  x.map (fun xi => xi ++ List.replicate (maxLen - xi.length) pad)

/-- Embeds `_make_tensor_with_pad` followed by flattening `Tensor::cat` along dim 0. -/
def make_tensor_with_pad {α : Type} (x : List (List α)) (maxLen : Nat) (pad : α) : List α :=
  (padRows x maxLen pad).flatten

/-- Embeds `PagedAttentionInputMetadata` (block tables reshaped to rows). -/
structure PagedAttentionInputMetadata where
  blockTables : Option (List (List Nat))
  contextLens : Option (List Nat)
  slotMappings : List Int
  maxContextLen : Option Nat
deriving Repr, DecidableEq

/-- Embeds `InputMetadata` plus, as extra fields, the builder's per-sequence
local vectors (`slot_mappings`, `block_tables`, `paged_attn_context_lens`)
before they are padded and flattened into `PagedAttentionInputMetadata`, and
the value the builder passes to `set_use_matmul_via_f16`.  `flash_meta`
cumulative arrays are kept as `Nat` lists. -/
structure InputMetadata where
  input : List (List Tok)
  positions : List Nat
  positionsKernel : List (List Int)
  contextLens : List (Nat × Nat)
  positionIds : List Nat
  pagedAttnMeta : Option PagedAttentionInputMetadata
  cumulativeSeqlensQ : List Nat
  cumulativeSeqlensK : List Nat
  maxQ : Nat
  maxK : Nat
  viaF16 : Bool
  slotMappingRows : List (List Int)
  kernelBlockTables : List (List Nat)
  promptPagedCtxLens : List (List Nat)
  completionPagedCtxLens : List Nat
deriving Repr, DecidableEq

/-- Helper for `Tensor::cumsum` along dim 0: inclusive prefix sums starting
from accumulator `acc`. -/
def cumsumFrom (acc : Nat) : List Nat → List Nat
  | [] => []
  | x :: xs => (acc + x) :: cumsumFrom (acc + x) xs

/-- Embeds `Tensor::cumsum(0)`: inclusive prefix sums. -/
def cumsum (xs : List Nat) : List Nat := cumsumFrom 0 xs

/-- Embeds the per-position slot loop of `make_prompt_chunk`: for each position
`i` of the chunk, push `_PAD_SLOT_ID` when `i < start_idx`, always record `i`
in the paged context lengths, panic (`none`) when
`i / block_size >= table.len()`, else push the physical slot
`table[i / block_size] * block_size + i % block_size` and a copy of the table. -/
def promptSlotLoop (table : List Nat) (bs startIdx : Nat) :
    List Nat → Option (List Int × List Nat × List (List Nat))
  | [] => some ([], [], [])
  | i :: rest =>
    if h : i / bs < table.length then
      let slot : Int := ((table.get ⟨i / bs, h⟩) * bs + i % bs : Nat)
      let pads : List Int := if i < startIdx then [PAD_SLOT_ID] else []
      match promptSlotLoop table bs startIdx rest with
      | none => none
      | some (sm, cl, tabs) => some (pads ++ slot :: sm, i :: cl, table :: tabs)
    else
      none

/-- Prepend an optional element. -/
def consOpt {α : Type} (x? : Option α) (l : List α) : List α :=
  match x? with
  | some x => x :: l
  | none => l

/-- The Paged-attention part of one `make_prompt_chunk` loop iteration, as a
function of the metadata, chunk offset, prompt length and sequence id: the
optional slot-mapping row pushed for this sequence, the per-position copies
pushed into `block_tables`, and the optional `paged_attn_context_lens` row.
Without metadata nothing is pushed; a missing table pushes a row of pad slots
and `continue`s; a too-small table panics (`none`). -/
def promptPagedPart (meta : Option PagedAttentionMeta) (chunkOffset promptLen sid : Nat) :
    Option (Option (List Int) × List (List Nat) × Option (List Nat)) :=
  match meta with
  | none => some (none, [], none)
  | some m =>
    match m.tableFor sid with
    | none => some (some (List.replicate promptLen PAD_SLOT_ID), [], none)
    | some table =>
      let startIdx :=
        match m.slidingWindow with
        | some sw =>
          if promptLen > sw then min chunkOffset (promptLen - sw) else chunkOffset
        | none => chunkOffset
      match promptSlotLoop table m.blockSize startIdx
          (List.range' chunkOffset promptLen) with
      | none => none
      | some (sm, cl, tabs) => some (some sm, tabs, some cl)

/-- Accumulated per-sequence vectors of the `make_prompt_chunk` main loop. -/
structure PromptLoopSt where
  seqsRows : List (List Tok)
  seqlenOffsets : List Nat
  contextLens : List (Nat × Nat)
  positionIds : List Nat
  slotMappings : List (List Int)
  blockTables : List (List Nat)
  pagedCtxLens : List (List Nat)
  seqlensQ : List Nat
  seqlensK : List Nat
deriving Repr, DecidableEq

/-- Embeds the main `for (seq, mut ctxt) in input_seqs.iter().zip(toks)` loop
of `make_prompt_chunk`: padding each prompt to `maxLen` with the zero pad
token, recording offsets, `(start, len)` context spans, position ids,
query/key sequence lengths, and (under Paged attention) slot mappings, block
tables and paged context lengths.  A missing block table pads the slot row
and `continue`s; a too-small table panics (`none`). -/
def promptLoop (maxLen chunkOffset : Nat) (lastN : Option (Nat × Nat))
    (meta : Option PagedAttentionMeta) :
    List (Sequence × List Tok) → Option PromptLoopSt
  | [] => some ⟨[], [], [], [], [], [], [], [], []⟩
  | (seq, ctxt) :: rest =>
    match promptLoop maxLen chunkOffset lastN meta rest,
          promptPagedPart meta chunkOffset ctxt.length seq.id with
    | some st, some (smRow, tabs, clRow) =>
      let offset := lastN.getD (0, 0)
      let padded := ctxt ++ List.replicate (maxLen - ctxt.length) (0 : Tok)
      let n1 := (lastN.map Prod.fst).getD 1
      some { seqsRows := padded :: st.seqsRows
             seqlenOffsets := (offset.2 + chunkOffset) :: st.seqlenOffsets
             contextLens := (padded.length - n1, n1) :: st.contextLens
             positionIds := (ctxt.length + chunkOffset) :: st.positionIds
             slotMappings := consOpt smRow st.slotMappings
             blockTables := tabs ++ st.blockTables
             pagedCtxLens := consOpt clRow st.pagedCtxLens
             seqlensQ := padded.length :: st.seqlensQ
             seqlensK := (padded.length + chunkOffset) :: st.seqlensK }
    | _, _ => none

/-- Embeds `make_prompt_chunk`.  Panics (`none`) on an empty batch
(`.expect("No sequences")`), on a too-small block table, and on the empty
`.max().unwrap()` calls of the paged aggregation. -/
def make_prompt_chunk (chunkOffset : Nat) (toks : List (List Tok))
    (inputSeqs : List Sequence) (lastN : Option (Nat × Nat))
    (meta : Option PagedAttentionMeta) : Option InputMetadata :=
  match (toks.map List.length).max? with
  | none => none
  | some maxLen =>
    match promptLoop maxLen chunkOffset lastN meta (inputSeqs.zip toks) with
    | none => none
    | some st =>
      let positionsKernel : List (List Int) :=
        match lastN with
        | some _ => st.seqlenOffsets.map
            (fun o => (List.range maxLen).map (fun j => ((o : Int) + (j : Int))))
        | none => st.seqsRows.map (fun _ => (List.range maxLen).map (fun j => (j : Int)))
      let maxQ := ((0 :: st.seqlensQ).max?).getD 0
      let maxK := ((0 :: st.seqlensK).max?).getD 0
      let cumQ := cumsum (0 :: st.seqlensQ)
      let cumK := cumsum (0 :: st.seqlensK)
      let viaF16 := decide (maxLen > VIA_F16_TOK_THRESHOLD)
      match meta with
      | none =>
        some { input := st.seqsRows, positions := st.seqlenOffsets,
               positionsKernel := positionsKernel, contextLens := st.contextLens,
               positionIds := st.positionIds, pagedAttnMeta := none,
               cumulativeSeqlensQ := cumQ, cumulativeSeqlensK := cumK,
               maxQ := maxQ, maxK := maxK, viaF16 := viaF16,
               slotMappingRows := st.slotMappings,
               kernelBlockTables := st.blockTables,
               promptPagedCtxLens := st.pagedCtxLens,
               completionPagedCtxLens := [] }
      | some _ =>
        match (st.slotMappings.map List.length).max?,
              (st.blockTables.map List.length).max?,
              (st.pagedCtxLens.map List.length).max? with
        | some maxSlotLen, some maxBT, some maxCtx =>
          let slotFlat := make_tensor_with_pad st.slotMappings maxSlotLen PAD_SLOT_ID
          let btRows := padRows st.blockTables maxBT 0
          let ctxFlat := make_tensor_with_pad st.pagedCtxLens maxCtx 0
          some { input := st.seqsRows, positions := st.seqlenOffsets,
                 positionsKernel := positionsKernel, contextLens := st.contextLens,
                 positionIds := st.positionIds,
                 pagedAttnMeta := some { blockTables := some btRows,
                                         contextLens := some ctxFlat,
                                         slotMappings := slotFlat,
                                         maxContextLen := some maxCtx },
                 cumulativeSeqlensQ := cumQ, cumulativeSeqlensK := cumK,
                 maxQ := maxQ, maxK := maxK, viaF16 := viaF16,
                 slotMappingRows := st.slotMappings,
                 kernelBlockTables := st.blockTables,
                 promptPagedCtxLens := st.pagedCtxLens,
                 completionPagedCtxLens := [] }
        | _, _, _ => none

/-- Accumulated per-sequence vectors of the `make_completion_chunk` loop. -/
structure CompletionLoopSt where
  seqsRows : List (List Tok)
  seqlenOffsets : List Nat
  contextLens : List (Nat × Nat)
  positionIds : List Nat
  slotMappings : List (List Int)
  blockTables : List (List Nat)
  pagedCtxLens : List Nat
  seqlensQ : List Nat
  seqlensK : List Nat
deriving Repr, DecidableEq

/-- Embeds the `for (seq, ctxt) in input_seqs.iter().zip(toks)` loop of
`make_completion_chunk`: one new token per sequence at
`start_pos = ctxt.len() - 1`; under Paged attention the slot for that single
position is resolved through the full block table, the kernel-visible block
table is truncated to the trailing `sliding_window / block_size` blocks, and
the reported context length is `min(seq.len(), sliding_window)`. -/
def completionLoop (meta : Option PagedAttentionMeta) :
    List (Sequence × List Tok) → Option CompletionLoopSt
  | [] => some ⟨[], [], [], [], [], [], [], [], []⟩
  | (seq, ctxt) :: rest =>
    match completionLoop meta rest with
    | none => none
    | some st =>
      let startPos := ctxt.length - 1
      let row := ctxt.drop startPos
      let qLen := row.length
      let kLen := row.length + startPos
      match meta with
      | none =>
        some { st with
          seqsRows := row :: st.seqsRows
          seqlenOffsets := startPos :: st.seqlenOffsets
          contextLens := (0, 1) :: st.contextLens
          positionIds := seq.len :: st.positionIds
          seqlensQ := qLen :: st.seqlensQ
          seqlensK := kLen :: st.seqlensK }
      | some m =>
        match m.tableFor seq.id with
        | none => none   -- `.unwrap()` on a missing table panics
        | some table =>
          if h : startPos / m.blockSize < table.length then
            let slot : Int :=
              ((table.get ⟨startPos / m.blockSize, h⟩) * m.blockSize
                + startPos % m.blockSize : Nat)
            let kernelTable :=
              match m.slidingWindow with
              | some sw =>
                let swBlocks := sw / m.blockSize
                let slideIdx := if table.length > swBlocks then table.length - swBlocks else 0
                table.drop slideIdx
              | none => table
            let ctxLen :=
              match m.slidingWindow with
              | some sw => min seq.len sw
              | none => seq.len
            some { st with
              seqsRows := row :: st.seqsRows
              seqlenOffsets := startPos :: st.seqlenOffsets
              contextLens := (0, 1) :: st.contextLens
              positionIds := seq.len :: st.positionIds
              slotMappings := [slot] :: st.slotMappings
              blockTables := kernelTable :: st.blockTables
              pagedCtxLens := ctxLen :: st.pagedCtxLens
              seqlensQ := qLen :: st.seqlensQ
              seqlensK := kLen :: st.seqlensK }
          else
            none   -- "Block table is too small (completion)!" panic

/-- Embeds `make_completion_chunk`.  Always passes `false` to
`set_use_matmul_via_f16`. -/
def make_completion_chunk (toks : List (List Tok)) (inputSeqs : List Sequence)
    (meta : Option PagedAttentionMeta) : Option InputMetadata :=
  match completionLoop meta (inputSeqs.zip toks) with
  | none => none
  | some st =>
    let positionsKernel : List (List Int) := st.seqlenOffsets.map (fun o => [(o : Int)])
    let maxQ := ((0 :: st.seqlensQ).max?).getD 0
    let maxK := ((0 :: st.seqlensK).max?).getD 0
    let cumQ := cumsum (0 :: st.seqlensQ)
    let cumK := cumsum (0 :: st.seqlensK)
    match meta with
    | none =>
      some { input := st.seqsRows, positions := st.seqlenOffsets,
             positionsKernel := positionsKernel, contextLens := st.contextLens,
             positionIds := st.positionIds, pagedAttnMeta := none,
             cumulativeSeqlensQ := cumQ, cumulativeSeqlensK := cumK,
             maxQ := maxQ, maxK := maxK, viaF16 := false,
             slotMappingRows := st.slotMappings,
             kernelBlockTables := st.blockTables,
             promptPagedCtxLens := [],
             completionPagedCtxLens := st.pagedCtxLens }
    | some _ =>
      match (st.blockTables.map List.length).max?, st.pagedCtxLens.max? with
      | some maxBT, some maxCtx =>
        let slotFlat := make_tensor_with_pad st.slotMappings 1 PAD_SLOT_ID
        let btRows := padRows st.blockTables maxBT 0
        some { input := st.seqsRows, positions := st.seqlenOffsets,
               positionsKernel := positionsKernel, contextLens := st.contextLens,
               positionIds := st.positionIds,
               pagedAttnMeta := some { blockTables := some btRows,
                                       contextLens := some st.pagedCtxLens,
                                       slotMappings := slotFlat,
                                       maxContextLen := some maxCtx },
               cumulativeSeqlensQ := cumQ, cumulativeSeqlensK := cumK,
               maxQ := maxQ, maxK := maxK, viaF16 := false,
               slotMappingRows := st.slotMappings,
               kernelBlockTables := st.blockTables,
               promptPagedCtxLens := [],
               completionPagedCtxLens := st.pagedCtxLens }
      | _, _ => none

/-- Outcome of input construction for one chunk: `ok` carries the metadata and
the per-chunk sequence-index list; `err` is a `Result::Err`; `abort` is a
panic. -/
inductive BuildOutcome where
  | ok (inputs : InputMetadata) (seqIndices : List Nat)
  | err (msg : String)
  | abort
deriving Repr, DecidableEq

/-- Fuelled version of slice `chunks`: groups into `n`-sized pieces. -/
def chunksOfGo {α : Type} (n : Nat) : Nat → List α → List (List α)
  | _, [] => []
  | 0, _ => []
  | fuel + 1, l => l.take n :: chunksOfGo n fuel (l.drop n)

/-- Embeds Rust slice `chunks(n)` (with `n > 0` guaranteed by `NonZeroUsize`). -/
def chunksOf {α : Type} (n : Nat) (l : List α) : List (List α) :=
  chunksOfGo n l.length l

/-- Embeds the push into `chunks_transposed`: append to row `i` when present,
else push a fresh row. -/
def pushChunkAt {α : Type} (acc : List (List α)) (i : Nat) (x : α) : List (List α) :=
  match acc.get? i with
  | some part => acc.set i (part ++ [x])
  | none => acc ++ [[x]]

/-- Embeds the transposition loop of `get_prompt_input`: convert per-sequence
chunk lists into per-chunk lists of `(chunk, seq_n)` pairs. -/
def transposeChunks (seqChunks : List (List (List Tok))) : List (List (List Tok × Nat)) :=
  seqChunks.enum.foldl
    (fun acc p => p.2.enum.foldl (fun acc2 q => pushChunkAt acc2 q.1 (q.2, p.1)) acc)
    []

/-- Embeds `get_prompt_input`: the chunked path when `prompt_batchsize` is set
and no Paged-attention metadata is supplied; the explicit configuration error
when both are present; otherwise a single unchunked prompt chunk. -/
def get_prompt_input (toks : List (List Tok)) (inputSeqs : List Sequence)
    (lastN : Option (Nat × Nat)) (meta : Option PagedAttentionMeta)
    (promptBatchsize : Option Nat) : List BuildOutcome :=
  match promptBatchsize, meta with
  | some pbs, none =>
    let seqChunks := toks.map (chunksOf pbs)
    let chunksT := transposeChunks seqChunks
    chunksT.enum.map (fun p =>
      let toksC := p.2.map Prod.fst
      let seqNs := p.2.map Prod.snd
      match make_prompt_chunk (p.1 * pbs) toksC
          (seqNs.map (fun j => inputSeqs.getD j ⟨0, 0⟩)) lastN none with
      | some md => .ok md seqNs
      | none => .abort)
  | some _, some _ =>
    [.err ("PagedAttention does not yet support prompt batching.")]
  | none, _ =>
    [match make_prompt_chunk 0 toks inputSeqs lastN meta with
     | some md => .ok md (List.range inputSeqs.length)
     | none => .abort]

/-- Embeds `get_completion_input`: with `no_kv_cache` the whole token history
is reprocessed through `get_prompt_input`; otherwise one completion chunk. -/
def get_completion_input (toks : List (List Tok)) (inputSeqs : List Sequence)
    (noKvCache : Bool) (lastN : Option (Nat × Nat))
    (meta : Option PagedAttentionMeta) (promptBatchsize : Option Nat) :
    List BuildOutcome :=
  if noKvCache then
    get_prompt_input toks inputSeqs lastN meta promptBatchsize
  else
    [match make_completion_chunk toks inputSeqs meta with
     | some md => .ok md (List.range inputSeqs.length)
     | none => .abort]

/-- Embeds `extract_logits` (`pipeline/mod.rs`): per row, `narrow(1, start, len)`
then concatenate. -/
def extract_logits {α : Type} (logits : List (List α))
    (contextLens : List (Nat × Nat)) : List (List α) :=
  (logits.zip contextLens).map (fun p => (p.1.drop p.2.1).take p.2.2)

/-- Embeds `set_use_matmul_via_f16` (`layers.rs`): the global flag is stored
only when `INHIBIT_GEMM_F16` is unset; the process-global state is passed
explicitly as `current`. -/
def set_use_matmul_via_f16 (inhibitGemmF16 current viaF16 : Bool) : Bool :=
  if inhibitGemmF16 then current else viaF16

/-! The per-step orchestrator (`Pipeline::step`, `DefaultInstructions` arm). -/

/-- Embeds `AdapterInstruction`. -/
inductive AdapterInstruction where
  | Activate (adapters : List String)
  | None
deriving Repr, DecidableEq

/-- Embeds `CacheInstruction`. -/
inductive CacheInstruction where
  | In (adapterInst : AdapterInstruction)
  | Out
  | Reset (resetNonGranular : Bool) (adapterInst : AdapterInstruction)
  | Nothing (adapterInst : AdapterInstruction)
deriving Repr, DecidableEq

/-- Cache state visible to a step, for an abstract cache content type `γ`:
the model's active cache and the sequences' owned storage (collectively). -/
structure CacheState (γ : Type) where
  modelCache : Option γ
  ownedCache : Option γ
deriving Repr, DecidableEq

/-- An observable action of `Pipeline::step`, for an abstract chunk type `χ`:
executing the pre cache instruction, a model forward pass on one chunk,
executing the post cache instruction, and handing logits to sampling. -/
inductive StepEvent (χ : Type) where
  | preInstr (op : CacheInstruction)
  | forwardPass (chunk : χ)
  | postInstr (op : CacheInstruction)
  | sample
deriving Repr, DecidableEq

/-- A step-level failure: a propagated error message or a panic
(`unreachable!` / `expect`). -/
inductive StepError where
  | msg (e : String)
  | fatal
deriving Repr, DecidableEq

/-- Runs an adapter instruction through the opaque `activate_adapters`. -/
def runAdapter (act : List String → Except String Unit) :
    AdapterInstruction → Except String Unit
  | .Activate a => act a
  | .None => .ok ()

/-- Embeds the `match pre_op` block of `Pipeline::step`.  Control flow (which
instruction runs the adapter op, `Out` being unreachable) is from
`pipeline/mod.rs`; the cache effects are modelled from the spec, because
`clone_in_cache` / `set_none_cache` are implemented in
`pipeline/cache_manager.rs`, which is not among the sources: `In` restores the
sequences' owned caches into the model's active cache, `Reset` clears the
active cache to empty, `Nothing` moves no cache state. -/
def execPreOp {γ : Type} (act : List String → Except String Unit)
    (op : CacheInstruction) (st : CacheState γ) : Except StepError (CacheState γ) :=
  match op with
  | .In a =>
    match runAdapter act a with
    | .error e => .error (.msg e)
    | .ok _ => .ok { st with modelCache := st.ownedCache }
  | .Nothing a =>
    match runAdapter act a with
    | .error e => .error (.msg e)
    | .ok _ => .ok st
  | .Reset _ a =>
    match runAdapter act a with
    | .error e => .error (.msg e)
    | .ok _ => .ok { st with modelCache := none }
  | .Out => .error .fatal   -- `unreachable!("Unreachable PRE cache op.")`

/-- Embeds the `match post_op` block of `Pipeline::step`.  Control flow is from
`pipeline/mod.rs`; the cache effects are modelled from the spec
(`clone_out_cache` / `set_none_cache` live in `pipeline/cache_manager.rs`,
not among the sources): `Out` persists the model's active cache back into the
sequences' owned storage, `Reset` clears the active cache, `Nothing` moves no
cache state; `In` is unreachable. -/
def applyPostOp {γ : Type} (op : CacheInstruction) (st : CacheState γ) :
    Option (CacheState γ) :=
  match op with
  | .Out => some { st with ownedCache := st.modelCache }
  | .Nothing _ => some st
  | .Reset _ _ => some { st with modelCache := none }
  | .In _ => none   -- `unreachable!("Unreachable POST cache op.")`

/-- Embeds the logit scatter loop: `logits[seq_idx] = Some(raw_logits.i(logit_idx)?)`;
an out-of-range row index fails. -/
def scatterLogitsGo {L : Type} (ls : List L) :
    List Nat → Nat → List (Option L) → Option (List (Option L))
  | [], _, logits => some logits
  | s :: rest, idx, logits =>
    match ls.get? idx with
    | none => none
    | some l =>
      if s < logits.length then
        scatterLogitsGo ls rest (idx + 1) (logits.set s (some l))
      else
        none

/-- Scatters one chunk's logit rows back into the result array keyed by the
chunk's sequence-index list. -/
def scatterLogits {L : Type} (logits : List (Option L)) (seqIdxs : List Nat)
    (ls : List L) : Option (List (Option L)) :=
  scatterLogitsGo ls seqIdxs 0 logits

/-- Embeds the `logits.into_iter().map(|l| l.expect(..))` collection: panics if
any sequence received no logits. -/
def collectLogits {L : Type} : List (Option L) → Option (List L)
  | [] => some []
  | none :: _ => none
  | some x :: rest => (collectLogits rest).map (fun l => x :: l)

/-- Embeds the `for (i, inputs) in inputs_iter.enumerate()` loop of
`Pipeline::step` (`DefaultInstructions` arm): take one chunk's input
construction result; on `i == 0` execute the pre instruction; run the model
forward pass; scatter the returned rows.  Returns the events performed, the
resulting cache state, and the logits array or the first propagated error. -/
def stepLoop {γ χ L : Type} (act : List String → Except String Unit)
    (forward : χ → Except String (List L)) (preOp : CacheInstruction) :
    List (Except String (χ × List Nat)) → Nat → CacheState γ → List (Option L) →
    List (StepEvent χ) × CacheState γ × Except StepError (List (Option L))
  | [], _, st, logits => ([], st, .ok logits)
  | .error e :: _, _, st, _ => ([], st, .error (.msg e))
  | .ok (chunk, seqIdxs) :: rest, i, st, logits =>
    let pre : Except StepError (CacheState γ × List (StepEvent χ)) :=
      if i = 0 then
        match execPreOp act preOp st with
        | .error e => .error e
        | .ok st1 => .ok (st1, [.preInstr preOp])
      else .ok (st, [])
    match pre with
    | .error e => ([], st, .error e)
    | .ok (st1, evs0) =>
      match forward chunk with
      | .error e => (evs0, st1, .error (.msg e))
      | .ok ls =>
        match scatterLogits logits seqIdxs ls with
        | none => (evs0 ++ [.forwardPass chunk], st1, .error .fatal)
        | some logits1 =>
          let r := stepLoop act forward preOp rest (i + 1) st1 logits1
          (evs0 ++ .forwardPass chunk :: r.1, r.2.1, r.2.2)

/-- Embeds the `DefaultInstructions` arm of `Pipeline::step`: drive the chunk
loop, then collect logits, execute the post instruction, and sample. -/
def step_default {γ χ L : Type} (act : List String → Except String Unit)
    (forward : χ → Except String (List L)) (preOp postOp : CacheInstruction)
    (inputsIter : List (Except String (χ × List Nat))) (numSeqs : Nat)
    (st : CacheState γ) :
    List (StepEvent χ) × CacheState γ × Except StepError (List L) :=
  match stepLoop act forward preOp inputsIter 0 st (List.replicate numSeqs none) with
  | (evs, st1, .error e) => (evs, st1, .error e)
  | (evs, st1, .ok logits) =>
    match collectLogits logits with
    | none => (evs, st1, .error .fatal)
    | some ls =>
      match applyPostOp postOp st1 with
      | none => (evs, st1, .error .fatal)
      | some st2 => (evs ++ [.postInstr postOp, .sample], st2, .ok ls)

/-- A failure of one chunk during a step: its input construction returned an
error, or the model forward pass on it fails. -/
def ChunkFailure {χ L : Type} (forward : χ → Except String (List L))
    (c : Except String (χ × List Nat)) : Prop :=
  (∃ e, c = Except.error e) ∨
  (∃ x idxs, c = Except.ok (x, idxs) ∧ ∃ e, forward x = Except.error e)

/-! The dense KV-cache update (modelled from the spec). -/

/-- Modelled from the spec: `Cache::update_kv_cache_sliding_window`
(`pipeline/cache_manager.rs`, not among the sources; spec section 4.1).  If the
cell is empty, set it to the new key/value; else concatenate along the
sequence-length axis; if a sliding window `w` is set and the concatenated
length exceeds `w`, truncate the oldest excess from the front of both key and
value.  Key/value tensors are embedded as lists of per-position entries; the
returned attention mask is not modelled (no claim depends on it). -/
def update_kv_cache_sliding_window {κ : Type} (cell : Option (List κ × List κ))
    (newKey newValue : List κ) (slidingWindow : Option Nat) : List κ × List κ :=
  match cell with
  | none => (newKey, newValue)
  | some (k, v) =>
    let kcat := k ++ newKey
    let vcat := v ++ newValue
    match slidingWindow with
    | some w =>
      if w < kcat.length then
        (kcat.drop (kcat.length - w), vcat.drop (vcat.length - w))
      else
        (kcat, vcat)
    | none => (kcat, vcat)

/-- A sequence of forward calls each appending one (key, value) entry through
the dense cache cell, starting from the empty cell, as performed by
`Attention::forward` (e.g. `models/phi3.rs`) on successive completion steps. -/
def dense_cache_run {κ : Type} (slidingWindow : Option Nat)
    (entries : List (κ × κ)) : Option (List κ × List κ) :=
  entries.foldl
    (fun cell e =>
      some (update_kv_cache_sliding_window cell [e.1] [e.2] slidingWindow))
    none

/-- View of an `ok` outcome: the chunk's input token rows. -/
def BuildOutcome.inputRows : BuildOutcome → Option (List (List Tok))
  | .ok md _ => some md.input
  | _ => none

/-- View of an `ok` outcome: the chunk's sequence-length offsets (positions). -/
def BuildOutcome.chunkPositions : BuildOutcome → Option (List Nat)
  | .ok md _ => some md.positions
  | _ => none

/-- Closed form, following the claim's wording, of the slot-mapping row the
prompt slot loop generates: for each position `i`, an optional pad slot
followed by `block_table[i / block_size] * block_size + i % block_size`. -/
def slotRowSpec (table : List Nat) (bs startIdx : Nat) (ps : List Nat) : List Int :=
  ps.flatMap (fun i =>
    (if i < startIdx then [PAD_SLOT_ID] else [])
      ++ [(((table.getD (i / bs) 0) * bs + i % bs : Nat) : Int)])

/-! Characterization lemmas. -/

theorem getElem?_zip_of_lt {α β : Type} {l1 : List α} {l2 : List β} {i : Nat}
    (h1 : i < l1.length) (h2 : i < l2.length) :
    (l1.zip l2)[i]? = some (l1[i], l2[i]) := by
  have h : i < (l1.zip l2).length := by
    simp only [List.length_zip]
    omega
  rw [List.getElem?_eq_getElem h, List.getElem_zip]

theorem cumsumFrom_getElem? (acc : Nat) (xs : List Nat) (i : Nat) (h : i < xs.length) :
    (cumsumFrom acc xs)[i]? = some (acc + (xs.take (i + 1)).sum) := by
  induction xs generalizing acc i with
  | nil => simp at h
  | cons x xs ih =>
    cases i with
    | zero => simp [cumsumFrom]
    | succ j =>
      have hj : j < xs.length := by simpa using h
      have hx := ih (acc + x) j hj
      simp only [cumsumFrom, List.getElem?_cons_succ, hx, List.take_succ_cons,
        List.sum_cons, Option.some.injEq]
      omega

theorem cumsum_zero_getElem? (ls : List Nat) : (cumsum (0 :: ls))[0]? = some 0 := by
  simp [cumsum, cumsumFrom]

theorem cumsum_zero_getElem?_succ (ls : List Nat) (i : Nat) (h : i < ls.length) :
    (cumsum (0 :: ls))[i + 1]? = some ((ls.take (i + 1)).sum) := by
  have hx := cumsumFrom_getElem? 0 (0 :: ls) (i + 1) (by simpa using Nat.succ_lt_succ h)
  simpa [cumsum, List.take_succ_cons] using hx

theorem cumsum_zero_getD (ls : List Nat) (i : Nat) (h : i ≤ ls.length) :
    (cumsum (0 :: ls)).getD i 0 = (ls.take i).sum := by
  cases i with
  | zero => simp [cumsum, cumsumFrom]
  | succ j =>
    have hj : j < ls.length := h
    simp [List.getD, cumsum_zero_getElem?_succ ls j hj]

/-- Inversion for `make_prompt_chunk`: a successful build comes from a
successful main loop, and the metadata fields are the loop's vectors. -/
theorem make_prompt_chunk_inv {chunkOffset : Nat} {toks : List (List Tok)}
    {inputSeqs : List Sequence} {lastN : Option (Nat × Nat)}
    {meta : Option PagedAttentionMeta} {md : InputMetadata}
    (h : make_prompt_chunk chunkOffset toks inputSeqs lastN meta = some md) :
    ∃ maxLen st, (toks.map List.length).max? = some maxLen ∧
      promptLoop maxLen chunkOffset lastN meta (inputSeqs.zip toks) = some st ∧
      md.input = st.seqsRows ∧ md.positions = st.seqlenOffsets ∧
      md.contextLens = st.contextLens ∧ md.positionIds = st.positionIds ∧
      md.cumulativeSeqlensQ = cumsum (0 :: st.seqlensQ) ∧
      md.cumulativeSeqlensK = cumsum (0 :: st.seqlensK) ∧
      md.viaF16 = decide (maxLen > VIA_F16_TOK_THRESHOLD) ∧
      md.slotMappingRows = st.slotMappings ∧
      md.kernelBlockTables = st.blockTables ∧
      md.promptPagedCtxLens = st.pagedCtxLens := by
  unfold make_prompt_chunk at h
  rcases hmax : (toks.map List.length).max? with _ | maxLen
  · simp [hmax] at h
  rcases hloop : promptLoop maxLen chunkOffset lastN meta (inputSeqs.zip toks)
    with _ | st
  · simp [hmax, hloop] at h
  refine ⟨maxLen, st, rfl, hloop, ?_⟩
  cases meta with
  | none =>
    cases lastN <;>
      · simp only [hmax, hloop, Option.some.injEq] at h
        subst h
        exact ⟨rfl, rfl, rfl, rfl, rfl, rfl, rfl, rfl, rfl, rfl⟩
  | some m =>
    simp only [hmax, hloop] at h
    cases lastN <;>
      · split at h
        next maxSlotLen maxBT maxCtx h1 h2 h3 =>
          simp only [Option.some.injEq] at h
          subst h
          exact ⟨rfl, rfl, rfl, rfl, rfl, rfl, rfl, rfl, rfl, rfl⟩
        next =>
          exact absurd h (by simp)

/-- Inversion for `make_completion_chunk`. -/
theorem make_completion_chunk_inv {toks : List (List Tok)}
    {inputSeqs : List Sequence} {meta : Option PagedAttentionMeta}
    {md : InputMetadata}
    (h : make_completion_chunk toks inputSeqs meta = some md) :
    ∃ st, completionLoop meta (inputSeqs.zip toks) = some st ∧
      md.input = st.seqsRows ∧ md.positions = st.seqlenOffsets ∧
      md.contextLens = st.contextLens ∧ md.positionIds = st.positionIds ∧
      md.cumulativeSeqlensQ = cumsum (0 :: st.seqlensQ) ∧
      md.cumulativeSeqlensK = cumsum (0 :: st.seqlensK) ∧
      md.viaF16 = false ∧
      md.slotMappingRows = st.slotMappings ∧
      md.kernelBlockTables = st.blockTables ∧
      md.completionPagedCtxLens = st.pagedCtxLens := by
  unfold make_completion_chunk at h
  rcases hloop : completionLoop meta (inputSeqs.zip toks) with _ | st
  · simp [hloop] at h
  refine ⟨st, rfl, ?_⟩
  cases meta with
  | none =>
    simp only [hloop, Option.some.injEq] at h
    subst h
    exact ⟨rfl, rfl, rfl, rfl, rfl, rfl, rfl, rfl, rfl, rfl⟩
  | some m =>
    simp only [hloop] at h
    split at h
    next maxBT maxCtx h1 h2 =>
      simp only [Option.some.injEq] at h
      subst h
      exact ⟨rfl, rfl, rfl, rfl, rfl, rfl, rfl, rfl, rfl, rfl⟩
    next =>
      exact absurd h (by simp)

/-- The `make_prompt_chunk` main loop, on success, records per sequence: its
padded row, its offset, the span `(padded_len - n, n)`, its position id, and
query/key lengths equal to the padded row length (plus the chunk offset for
keys). -/
theorem promptLoop_fields {maxLen chunkOffset : Nat} {lastN : Option (Nat × Nat)}
    {meta : Option PagedAttentionMeta} :
    ∀ {pairs : List (Sequence × List Tok)} {st : PromptLoopSt},
      promptLoop maxLen chunkOffset lastN meta pairs = some st →
      st.seqsRows = pairs.map
        (fun p => p.2 ++ List.replicate (maxLen - p.2.length) (0 : Tok)) ∧
      st.seqlenOffsets = pairs.map (fun _ => (lastN.getD (0, 0)).2 + chunkOffset) ∧
      st.contextLens = pairs.map (fun p =>
        ((p.2 ++ List.replicate (maxLen - p.2.length) (0 : Tok)).length
            - (lastN.map Prod.fst).getD 1,
          (lastN.map Prod.fst).getD 1)) ∧
      st.positionIds = pairs.map (fun p => p.2.length + chunkOffset) ∧
      st.seqlensQ = st.seqsRows.map List.length ∧
      st.seqlensK = st.seqsRows.map (fun r => r.length + chunkOffset) := by
  intro pairs
  induction pairs with
  | nil =>
    intro st h
    simp only [promptLoop, Option.some.injEq] at h
    subst h
    simp
  | cons p rest ih =>
    obtain ⟨seq, ctxt⟩ := p
    intro st h
    rw [promptLoop] at h
    rcases hr : promptLoop maxLen chunkOffset lastN meta rest with _ | st0
    · simp [hr] at h
    rcases hp : promptPagedPart meta chunkOffset ctxt.length seq.id with _ | ⟨smRow, tabs, clRow⟩
    · simp [hr, hp] at h
    simp only [hr, hp, Option.some.injEq] at h
    subst h
    obtain ⟨h1, h2, h3, h4, h5, h6⟩ := ih hr
    refine ⟨?_, ?_, ?_, ?_, ?_, ?_⟩ <;> simp [h1, h2, h3, h4, h5, h6]

/-- The `make_completion_chunk` loop, on success, records per sequence: the
one-token row `ctxt[start_pos..]`, the offset `start_pos = len - 1`, the span
`(0, 1)`, the position id `seq.len`, and query/key lengths equal to the row
length (plus `start_pos` for keys). -/
theorem completionLoop_fields {meta : Option PagedAttentionMeta} :
    ∀ {pairs : List (Sequence × List Tok)} {st : CompletionLoopSt},
      completionLoop meta pairs = some st →
      st.seqsRows = pairs.map (fun p => p.2.drop (p.2.length - 1)) ∧
      st.seqlenOffsets = pairs.map (fun p => p.2.length - 1) ∧
      st.contextLens = pairs.map (fun _ => ((0 : Nat), (1 : Nat))) ∧
      st.positionIds = pairs.map (fun p => p.1.len) ∧
      st.seqlensQ = st.seqsRows.map List.length ∧
      st.seqlensK = (st.seqsRows.zip st.seqlenOffsets).map
        (fun q => q.1.length + q.2) := by
  intro pairs
  induction pairs with
  | nil =>
    intro st h
    simp only [completionLoop, Option.some.injEq] at h
    subst h
    simp
  | cons p rest ih =>
    obtain ⟨seq, ctxt⟩ := p
    intro st h
    rw [completionLoop] at h
    rcases hr : completionLoop meta rest with _ | st0
    · simp [hr] at h
    obtain ⟨h1, h2, h3, h4, h5, h6⟩ := ih hr
    cases meta with
    | none =>
      simp only [hr, Option.some.injEq] at h
      subst h
      refine ⟨?_, ?_, ?_, ?_, ?_, ?_⟩ <;> simp [h1, h2, h3, h4, h5, h6]
    | some m =>
      simp only [hr] at h
      rcases ht : m.tableFor seq.id with _ | table
      · simp [ht] at h
      simp only [ht] at h
      split at h
      · simp only [Option.some.injEq] at h
        subst h
        refine ⟨?_, ?_, ?_, ?_, ?_, ?_⟩ <;> simp [h1, h2, h3, h4, h5, h6]
      · exact absurd h (by simp)

theorem cumsum_recurrence (ls : List Nat) (i : Nat) (h : i < ls.length) :
    (cumsum (0 :: ls))[i + 1]? = some ((cumsum (0 :: ls)).getD i 0 + ls[i]) := by
  rw [cumsum_zero_getElem?_succ _ _ h, List.sum_take_succ _ _ h,
    cumsum_zero_getD _ _ (le_of_lt h)]

/-! Claim theorems. -/

/-- C1: whenever chunked prompt batching (`prompt_batchsize`) is configured and
Paged-attention metadata is supplied, `get_prompt_input` yields exactly one
item, the explicit configuration error, before building any chunk — it never
yields an `ok` chunk, so the conflict is never silently resolved. -/
theorem c1_chunked_prompt_with_paged_attention_fails_fast
    (toks : List (List Tok)) (inputSeqs : List Sequence)
    (lastN : Option (Nat × Nat)) (m : PagedAttentionMeta) (pbs : Nat) :
    get_prompt_input toks inputSeqs lastN (some m) (some pbs) =
      [BuildOutcome.err ("PagedAttention does not yet support prompt batching.")]
    ∧ ∀ md idxs,
        BuildOutcome.ok md idxs ∉ get_prompt_input toks inputSeqs lastN (some m) (some pbs) := by
  refine ⟨rfl, ?_⟩
  intro md idxs hmem
  simp [get_prompt_input] at hmem

/-- C2 (counterexample): for the unbatched prompt batch `[[1,2],[3,4,5]]` the
recorded span of the first sequence is `(2, 1)`, whose selected position `2`
is not an own-token position of that sequence (its prompt length is 2), and
slicing marker logits (`99` sits at the padding position) yields the padding
logit `99` instead of the own-token logit `11` — padding does pollute the
sliced next-token distribution, refuting the claim as stated. -/
theorem c2_counterexample_padding_pollutes_last_logit :
    ((make_prompt_chunk 0 [[1, 2], [3, 4, 5]] [⟨0, 2⟩, ⟨1, 3⟩] none none).map
        InputMetadata.contextLens = some [(2, 1), (2, 1)])
    ∧ ((make_prompt_chunk 0 [[1, 2], [3, 4, 5]] [⟨0, 2⟩, ⟨1, 3⟩] none none).map
        (fun md => extract_logits [[10, 11, 99], [20, 21, 22]] md.contextLens)
        = some [[99], [22]])
    ∧ ((make_prompt_chunk 0 [[1, 2], [3, 4, 5]] [⟨0, 2⟩, ⟨1, 3⟩] none none).map
        (fun md => extract_logits [[10, 11, 99], [20, 21, 22]] md.contextLens)
        ≠ some [[11], [22]])
    ∧ ¬ (2 < 2) :=
  ⟨rfl, rfl, by decide, by decide⟩

/-- C2 (amended): for every unbatched prompt chunk, each prompt is padded to
the batch max with the neutral pad token `0`, and the recorded span is
`(maxLen - 1, 1)`: slicing the logits selects exactly the last position of the
*padded* row.  That position belongs to the sequence's own tokens exactly when
its prompt length equals the batch max; only then is the selected logit the
sequence's own final-token logit. -/
theorem c2_amended_context_spans_select_padded_tail
    (toks : List (List Tok)) (inputSeqs : List Sequence) (md : InputMetadata)
    (maxLen i : Nat)
    (h : make_prompt_chunk 0 toks inputSeqs none none = some md)
    (hmax : (toks.map List.length).max? = some maxLen)
    (hlen : inputSeqs.length = toks.length)
    (hi : i < toks.length) :
    md.contextLens[i]? = some (maxLen - 1, 1) ∧
    md.input[i]? = some (toks[i] ++ List.replicate (maxLen - toks[i].length) 0) ∧
    (extract_logits md.input md.contextLens)[i]? =
      md.input[i]?.map (fun row => (row.drop (maxLen - 1)).take 1) ∧
    (toks[i].length = maxLen →
      (extract_logits md.input md.contextLens)[i]? =
        some (toks[i].drop (toks[i].length - 1))) := by
  obtain ⟨maxLen2, st, hmax2, hloop, hinput, hpos, hctx, hpids, hcq, hck, hvf,
    hsr, hkb, hpc⟩ := make_prompt_chunk_inv h
  have hM : maxLen = maxLen2 := (Option.some.inj (hmax2.symm.trans hmax)).symm
  subst hM
  obtain ⟨hrows, hoffs, hctxs, hpids2, hq, hk⟩ := promptLoop_fields hloop
  have hi1 : i < inputSeqs.length := by omega
  have hzip := getElem?_zip_of_lt hi1 hi
  have hle : toks[i].length ≤ maxLen := by
    have hmem : toks[i].length ∈ toks.map List.length :=
      List.mem_map.mpr ⟨toks[i], List.getElem_mem hi, rfl⟩
    exact ((List.max?_eq_some_iff').mp hmax).2 _ hmem
  have hpadlen : toks[i].length + (maxLen - toks[i].length) = maxLen := by omega
  have h1 : md.contextLens[i]? = some (maxLen - 1, 1) := by
    rw [hctx, hctxs, List.getElem?_map, hzip]
    simp [hpadlen]
  have h2 : md.input[i]? = some (toks[i] ++ List.replicate (maxLen - toks[i].length) 0) := by
    rw [hinput, hrows, List.getElem?_map, hzip]
    simp
  have hlctx : i < md.contextLens.length := by
    rw [hctx, hctxs, List.length_map, List.length_zip]
    omega
  have hlinp : i < md.input.length := by
    rw [hinput, hrows, List.length_map, List.length_zip]
    omega
  have hctxi : md.contextLens[i] = (maxLen - 1, 1) :=
    Option.some.inj ((List.getElem?_eq_getElem hlctx).symm.trans h1)
  have h3 : (extract_logits md.input md.contextLens)[i]? =
      md.input[i]?.map (fun row => (row.drop (maxLen - 1)).take 1) := by
    rw [extract_logits, List.getElem?_map, getElem?_zip_of_lt hlinp hlctx,
      List.getElem?_eq_getElem hlinp]
    simp [hctxi]
  refine ⟨h1, h2, h3, ?_⟩
  intro heq
  have hpad : md.input[i]? = some toks[i] := by
    simp [h2, heq]
  rw [h3, hpad, heq]
  have hdlen : (toks[i].drop (maxLen - 1)).length ≤ 1 := by
    rw [List.length_drop, heq]
    omega
  exact congrArg some (List.take_of_length_le hdlen)

/-- C2 witness for the amended theorem: an equal-length batch, where the span
`(1, 1)` does select each sequence's own final token. -/
theorem c2_witness :
    ∃ md, make_prompt_chunk 0 [[1, 2], [3, 4]] [⟨0, 2⟩, ⟨1, 2⟩] none none = some md ∧
      md.contextLens[0]? = some (1, 1) ∧
      md.input[0]? = some ([1, 2] ++ List.replicate 0 0) ∧
      (extract_logits md.input md.contextLens)[0]? = some ([1, 2].drop 1) := by
  refine ⟨_, rfl, ?_, ?_, ?_⟩
  · exact (c2_amended_context_spans_select_padded_tail [[1, 2], [3, 4]]
      [⟨0, 2⟩, ⟨1, 2⟩] _ 2 0 rfl rfl rfl (by decide)).1
  · exact (c2_amended_context_spans_select_padded_tail [[1, 2], [3, 4]]
      [⟨0, 2⟩, ⟨1, 2⟩] _ 2 0 rfl rfl rfl (by decide)).2.1
  · exact (c2_amended_context_spans_select_padded_tail [[1, 2], [3, 4]]
      [⟨0, 2⟩, ⟨1, 2⟩] _ 2 0 rfl rfl rfl (by decide)).2.2.2 rfl

set_option maxRecDepth 8000 in
/-- C3: in a Paged-attention chunk, the slot-mapping entry generated for every
token position `p` is `block_table[p / block_size] * block_size + p % block_size`
(the prompt slot loop produces exactly the closed-form rows), and for a
completion step of a sequence with `block_size = 16` and `current_length = 33`
the physical slot computed for logical position 32 is `block_table[2] * 16 + 0`. -/
theorem c3_slot_mapping_formula :
    (∀ (table : List Nat) (bs startIdx : Nat) (ps : List Nat),
        (∀ i ∈ ps, i / bs < table.length) →
        promptSlotLoop table bs startIdx ps =
          some (slotRowSpec table bs startIdx ps, ps, ps.map (fun _ => table))) ∧
    (∀ a b c : Nat,
        (make_completion_chunk [List.replicate 33 0] [⟨0, 33⟩]
            (some ⟨none, 16, [(0, [a, b, c])]⟩)).map InputMetadata.slotMappingRows =
          some [[((c * 16 + 0 : Nat) : Int)]]) := by
  constructor
  · intro table bs startIdx ps h
    induction ps with
    | nil => simp [promptSlotLoop, slotRowSpec]
    | cons i rest ih =>
      have hi : i / bs < table.length := h i (by simp)
      have hrest : ∀ j ∈ rest, j / bs < table.length := fun j hj => h j (by simp [hj])
      rw [promptSlotLoop, dif_pos hi, ih hrest]
      have hgd : table[i / bs]?.getD 0 = table[i / bs] := by
        rw [List.getElem?_eq_getElem hi]
        rfl
      simp [slotRowSpec, List.flatMap_cons, hgd]
  · intro a b c
    with_unfolding_all rfl

/-- C3 witness: a concrete prompt slot loop (block size 2, table `[4, 7]`,
positions 0..3, one leading pad position). -/
theorem c3_witness :
    promptSlotLoop [4, 7] 2 1 [0, 1, 2, 3] =
      some (slotRowSpec [4, 7] 2 1 [0, 1, 2, 3], [0, 1, 2, 3],
        [[4, 7], [4, 7], [4, 7], [4, 7]]) :=
  c3_slot_mapping_formula.1 [4, 7] 2 1 [0, 1, 2, 3] (by decide)

set_option maxRecDepth 8000 in
/-- C6 (counterexample): with the global `INHIBIT_GEMM_F16` flag set, building
a 513-token prompt chunk requests the f16 path but the flag stays disabled —
the claimed "enabled if and only if length exceeds 512" fails as stated. -/
theorem c6_counterexample_inhibited_f16 :
    ((make_prompt_chunk 0 [List.replicate 513 0] [⟨0, 513⟩] none none).map
        (fun md => set_use_matmul_via_f16 true false md.viaF16) = some false)
    ∧ ((make_prompt_chunk 0 [List.replicate 513 0] [⟨0, 513⟩] none none).map
        InputMetadata.viaF16 = some true)
    ∧ 512 < 513 :=
  ⟨by rfl, by rfl, by decide⟩

/-- C6 (amended): building a prompt chunk passes `token length > 512` to
`set_use_matmul_via_f16` and a completion chunk always passes `false`; the
global flag then becomes exactly that value when `INHIBIT_GEMM_F16` is unset,
and is left unchanged when it is set. -/
theorem c6_amended_f16_threshold
    (chunkOffset : Nat) (toks toksC : List (List Tok))
    (inputSeqs seqsC : List Sequence) (lastN : Option (Nat × Nat))
    (meta metaC : Option PagedAttentionMeta) (maxLen : Nat) (cur : Bool)
    (mdP mdC : InputMetadata)
    (h1 : make_prompt_chunk chunkOffset toks inputSeqs lastN meta = some mdP)
    (hmax : (toks.map List.length).max? = some maxLen)
    (h2 : make_completion_chunk toksC seqsC metaC = some mdC) :
    VIA_F16_TOK_THRESHOLD = 512 ∧
    mdP.viaF16 = decide (512 < maxLen) ∧
    set_use_matmul_via_f16 false cur mdP.viaF16 = decide (512 < maxLen) ∧
    set_use_matmul_via_f16 true cur mdP.viaF16 = cur ∧
    mdC.viaF16 = false ∧
    set_use_matmul_via_f16 false cur mdC.viaF16 = false ∧
    set_use_matmul_via_f16 true cur mdC.viaF16 = cur := by
  obtain ⟨maxLen2, st, hmax2, hloop, hinput, hpos, hctx, hpids, hcq, hck, hvf,
    hsr, hkb, hpc⟩ := make_prompt_chunk_inv h1
  obtain ⟨stC, hloopC, hinputC, hposC, hctxC, hpidsC, hcqC, hckC, hvfC,
    hsrC, hkbC, hpcC⟩ := make_completion_chunk_inv h2
  have hM : maxLen = maxLen2 := (Option.some.inj (hmax2.symm.trans hmax)).symm
  subst hM
  refine ⟨rfl, ?_, ?_, ?_, ?_, ?_, ?_⟩ <;>
    simp [hvf, hvfC, set_use_matmul_via_f16, VIA_F16_TOK_THRESHOLD]

/-- C6 witness: a 1-token prompt chunk (request `false`) and a completion
chunk, with the inhibit flag both set and unset. -/
theorem c6_witness :
    ∃ mdP mdC,
      make_prompt_chunk 0 [[1]] [⟨0, 1⟩] none none = some mdP ∧
      make_completion_chunk [[1, 2]] [⟨0, 2⟩] none = some mdC ∧
      mdP.viaF16 = decide (512 < 1) ∧
      set_use_matmul_via_f16 true true mdP.viaF16 = true ∧
      mdC.viaF16 = false := by
  refine ⟨_, _, rfl, rfl, ?_, ?_, ?_⟩
  · exact (c6_amended_f16_threshold 0 [[1]] [[1, 2]] [⟨0, 1⟩] [⟨0, 2⟩] none none
      none 1 true _ _ rfl rfl rfl).2.1
  · exact (c6_amended_f16_threshold 0 [[1]] [[1, 2]] [⟨0, 1⟩] [⟨0, 2⟩] none none
      none 1 true _ _ rfl rfl rfl).2.2.2.1
  · exact (c6_amended_f16_threshold 0 [[1]] [[1, 2]] [⟨0, 1⟩] [⟨0, 2⟩] none none
      none 1 true _ _ rfl rfl rfl).2.2.2.2.1

/-- C10: with no KV cache configured, `get_completion_input` does not build a
one-new-token completion chunk: it routes the entire token history through
`get_prompt_input` (identical output), inheriting its chunking, padding and
position behaviour — e.g. a 5-token history with `prompt_batchsize = 2` is
reprocessed as three prompt chunks `[1,2]/[3,4]/[5]` at offsets `0/2/4`,
whereas with a KV cache the same call builds the single one-token chunk `[5]`
at position 4. -/
theorem c10_no_kv_cache_reprocesses_full_history :
    (∀ (toks : List (List Tok)) (inputSeqs : List Sequence)
        (lastN : Option (Nat × Nat)) (meta : Option PagedAttentionMeta)
        (pbs : Option Nat),
      get_completion_input toks inputSeqs true lastN meta pbs =
        get_prompt_input toks inputSeqs lastN meta pbs) ∧
    ((get_completion_input [[1, 2, 3, 4, 5]] [⟨0, 5⟩] true none none (some 2)).map
        BuildOutcome.inputRows = [some [[1, 2]], some [[3, 4]], some [[5]]]) ∧
    ((get_completion_input [[1, 2, 3, 4, 5]] [⟨0, 5⟩] true none none (some 2)).map
        BuildOutcome.chunkPositions = [some [0], some [2], some [4]]) ∧
    ((get_completion_input [[1, 2, 3, 4, 5]] [⟨0, 5⟩] false none none (some 2)).map
        BuildOutcome.inputRows = [some [[5]]]) ∧
    ((get_completion_input [[1, 2, 3, 4, 5]] [⟨0, 5⟩] false none none (some 2)).map
        BuildOutcome.chunkPositions = [some [4]]) := by
  refine ⟨?_, rfl, rfl, rfl, rfl⟩
  intro toks inputSeqs lastN meta pbs
  simp [get_completion_input]

/-- C7: for every chunk built by the batch builder (prompt or completion), the
cumulative query/key arrays satisfy `cumulative[0] = 0` and
`cumulative[i+1] = cumulative[i] + len_i`, where the query length is the
length of the row sequence `i` contributes to the chunk's input and the key
length additionally counts the sequence's previously cached tokens (the chunk
offset for prompt chunks; `start_pos`, the recorded position, for completion
chunks). -/
theorem c7_cumulative_seqlen_recurrence :
    (∀ (chunkOffset : Nat) (toks : List (List Tok)) (inputSeqs : List Sequence)
        (lastN : Option (Nat × Nat)) (meta : Option PagedAttentionMeta)
        (md : InputMetadata),
      make_prompt_chunk chunkOffset toks inputSeqs lastN meta = some md →
      md.cumulativeSeqlensQ[0]? = some 0 ∧
      md.cumulativeSeqlensK[0]? = some 0 ∧
      ∀ i, i < md.input.length →
        md.cumulativeSeqlensQ[i + 1]? =
          some (md.cumulativeSeqlensQ.getD i 0 + (md.input.getD i []).length) ∧
        md.cumulativeSeqlensK[i + 1]? =
          some (md.cumulativeSeqlensK.getD i 0 +
            ((md.input.getD i []).length + chunkOffset))) ∧
    (∀ (toks : List (List Tok)) (inputSeqs : List Sequence)
        (meta : Option PagedAttentionMeta) (md : InputMetadata),
      make_completion_chunk toks inputSeqs meta = some md →
      md.cumulativeSeqlensQ[0]? = some 0 ∧
      md.cumulativeSeqlensK[0]? = some 0 ∧
      ∀ i, i < md.input.length →
        md.cumulativeSeqlensQ[i + 1]? =
          some (md.cumulativeSeqlensQ.getD i 0 + (md.input.getD i []).length) ∧
        md.cumulativeSeqlensK[i + 1]? =
          some (md.cumulativeSeqlensK.getD i 0 +
            ((md.input.getD i []).length + md.positions.getD i 0))) := by
  constructor
  · intro chunkOffset toks inputSeqs lastN meta md h
    obtain ⟨maxLen, st, hmax2, hloop, hinput, hpos, hctx, hpids, hcq, hck, hvf,
      hsr, hkb, hpc⟩ := make_prompt_chunk_inv h
    obtain ⟨hrows, hoffs, hctxs, hpids2, hq, hk⟩ := promptLoop_fields hloop
    have hql : st.seqlensQ.length = md.input.length := by
      rw [hq, hinput, List.length_map]
    have hkl : st.seqlensK.length = md.input.length := by
      rw [hk, hinput, List.length_map]
    refine ⟨by rw [hcq]; exact cumsum_zero_getElem? _,
            by rw [hck]; exact cumsum_zero_getElem? _, ?_⟩
    intro i hilt
    have hiq : i < st.seqlensQ.length := by omega
    have hik : i < st.seqlensK.length := by omega
    have hrowi : md.input.getD i [] = md.input[i] :=
      List.getD_eq_getElem _ _ (by omega)
    have hq? : st.seqlensQ[i]? = some ((md.input.getD i []).length) := by
      rw [hq, ← hinput, List.getElem?_map, List.getElem?_eq_getElem hilt]
      simp [hrowi, List.getElem?_eq_getElem hilt]
    have hk? : st.seqlensK[i]? = some ((md.input.getD i []).length + chunkOffset) := by
      rw [hk, ← hinput, List.getElem?_map, List.getElem?_eq_getElem hilt]
      simp [hrowi, List.getElem?_eq_getElem hilt]
    have hqi : st.seqlensQ[i] = (md.input.getD i []).length :=
      Option.some.inj ((List.getElem?_eq_getElem hiq).symm.trans hq?)
    have hki : st.seqlensK[i] = (md.input.getD i []).length + chunkOffset :=
      Option.some.inj ((List.getElem?_eq_getElem hik).symm.trans hk?)
    constructor
    · rw [hcq, cumsum_recurrence _ _ hiq, hqi]
    · rw [hck, cumsum_recurrence _ _ hik, hki]
  · intro toks inputSeqs meta md h
    obtain ⟨st, hloop, hinput, hpos, hctx, hpids, hcq, hck, hvf, hsr, hkb, hpc⟩ :=
      make_completion_chunk_inv h
    obtain ⟨hrows, hoffs, hctxs, hpids2, hq, hk⟩ := completionLoop_fields hloop
    have hrl : st.seqsRows.length = st.seqlenOffsets.length := by
      rw [hrows, hoffs, List.length_map, List.length_map]
    have hql : st.seqlensQ.length = md.input.length := by
      rw [hq, hinput, List.length_map]
    have hkl : st.seqlensK.length = md.input.length := by
      rw [hk, List.length_map, List.length_zip, hinput]
      omega
    refine ⟨by rw [hcq]; exact cumsum_zero_getElem? _,
            by rw [hck]; exact cumsum_zero_getElem? _, ?_⟩
    intro i hilt
    have hiq : i < st.seqlensQ.length := by omega
    have hik : i < st.seqlensK.length := by omega
    have hio : i < st.seqlenOffsets.length := by
      rw [hinput] at hilt
      omega
    have hirows : i < st.seqsRows.length := by rw [hinput] at hilt; exact hilt
    have hrowi : md.input.getD i [] = md.input[i] :=
      List.getD_eq_getElem _ _ (by omega)
    have hposi : md.positions.getD i 0 = st.seqlenOffsets[i] := by
      rw [hpos]
      exact List.getD_eq_getElem _ _ hio
    have hq? : st.seqlensQ[i]? = some ((md.input.getD i []).length) := by
      rw [hq, ← hinput, List.getElem?_map, List.getElem?_eq_getElem hilt]
      simp [hrowi, List.getElem?_eq_getElem hilt]
    have hk? : st.seqlensK[i]? =
        some ((md.input.getD i []).length + md.positions.getD i 0) := by
      have e2 : st.seqsRows[i]? = some md.input[i] := by
        rw [← hinput]
        exact List.getElem?_eq_getElem hilt
      have hrowi2 : st.seqsRows[i] = md.input[i] :=
        Option.some.inj ((List.getElem?_eq_getElem hirows).symm.trans e2)
      have e3 : md.positions[i]? = some st.seqlenOffsets[i] := by
        rw [hpos]
        exact List.getElem?_eq_getElem hio
      rw [hk, List.getElem?_map, getElem?_zip_of_lt hirows hio]
      simp [hrowi, hposi, hrowi2, e3, List.getElem?_eq_getElem hilt]
    have hqi : st.seqlensQ[i] = (md.input.getD i []).length :=
      Option.some.inj ((List.getElem?_eq_getElem hiq).symm.trans hq?)
    have hki : st.seqlensK[i] =
        (md.input.getD i []).length + md.positions.getD i 0 :=
      Option.some.inj ((List.getElem?_eq_getElem hik).symm.trans hk?)
    constructor
    · rw [hcq, cumsum_recurrence _ _ hiq, hqi]
    · rw [hck, cumsum_recurrence _ _ hik, hki]

/-- C7 witness: a two-sequence prompt batch and a one-sequence completion
batch, checking the recurrence at index 0. -/
theorem c7_witness :
    ∃ mdP mdC,
      make_prompt_chunk 0 [[1, 2], [3, 4, 5]] [⟨0, 2⟩, ⟨1, 3⟩] none none = some mdP ∧
      make_completion_chunk [[1, 2, 3, 4, 5]] [⟨0, 5⟩] none = some mdC ∧
      mdP.cumulativeSeqlensQ[0]? = some 0 ∧
      (mdP.cumulativeSeqlensQ[0 + 1]? =
          some (mdP.cumulativeSeqlensQ.getD 0 0 + (mdP.input.getD 0 []).length) ∧
        mdP.cumulativeSeqlensK[0 + 1]? =
          some (mdP.cumulativeSeqlensK.getD 0 0 + ((mdP.input.getD 0 []).length + 0))) ∧
      mdC.cumulativeSeqlensK[0]? = some 0 ∧
      (mdC.cumulativeSeqlensQ[0 + 1]? =
          some (mdC.cumulativeSeqlensQ.getD 0 0 + (mdC.input.getD 0 []).length) ∧
        mdC.cumulativeSeqlensK[0 + 1]? =
          some (mdC.cumulativeSeqlensK.getD 0 0 +
            ((mdC.input.getD 0 []).length + mdC.positions.getD 0 0))) := by
  refine ⟨_, _, rfl, rfl, ?_, ?_, ?_, ?_⟩
  · exact (c7_cumulative_seqlen_recurrence.1 0 [[1, 2], [3, 4, 5]]
      [⟨0, 2⟩, ⟨1, 3⟩] none none _ rfl).1
  · exact (c7_cumulative_seqlen_recurrence.1 0 [[1, 2], [3, 4, 5]]
      [⟨0, 2⟩, ⟨1, 3⟩] none none _ rfl).2.2 0 (by decide)
  · exact (c7_cumulative_seqlen_recurrence.2 [[1, 2, 3, 4, 5]]
      [⟨0, 5⟩] none _ rfl).2.1
  · exact (c7_cumulative_seqlen_recurrence.2 [[1, 2, 3, 4, 5]]
      [⟨0, 5⟩] none _ rfl).2.2 0 (by decide)

/-- C8: on a completion step under Paged attention with a sliding window `w`,
the block table handed to the kernel is the trailing
`min(table_len, w / block_size)` blocks of the sequence's table (only the
trailing `w / block_size` whenever the table is longer than that), the
reported context length is `min(current_length, w)`, and no token data is
discarded: the slot written for the new token is still resolved through the
*full* untruncated table. -/
theorem c8_completion_sliding_window_truncation
    (seq : Sequence) (ctxt : List Tok) (rest : List (Sequence × List Tok))
    (m : PagedAttentionMeta) (w : Nat) (table : List Nat) (st : CompletionLoopSt)
    (hw : m.slidingWindow = some w)
    (ht : m.tableFor seq.id = some table)
    (h : completionLoop (some m) ((seq, ctxt) :: rest) = some st) :
    st.blockTables[0]? =
      some (table.drop (table.length - min table.length (w / m.blockSize))) ∧
    st.pagedCtxLens[0]? = some (min seq.len w) ∧
    st.slotMappings[0]? =
      some [(((table.getD ((ctxt.length - 1) / m.blockSize) 0) * m.blockSize
        + (ctxt.length - 1) % m.blockSize : Nat) : Int)] := by
  rw [completionLoop] at h
  rcases hr : completionLoop (some m) rest with _ | st0
  · simp [hr] at h
  simp only [hr, ht] at h
  split at h
  next hb =>
    simp only [Option.some.injEq] at h
    subst h
    refine ⟨?_, ?_, ?_⟩
    · simp only [hw]
      have harith : (if table.length > w / m.blockSize
            then table.length - w / m.blockSize else 0)
          = table.length - min table.length (w / m.blockSize) := by
        split <;> omega
      simp [harith]
    · simp [hw]
    · have hgd : table[(ctxt.length - 1) / m.blockSize]?.getD 0
          = table[(ctxt.length - 1) / m.blockSize] := by
        rw [List.getElem?_eq_getElem hb]
        rfl
      simp [hgd, List.get_eq_getElem]
  next =>
    exact absurd h (by simp)

/-- C8 witness: window 8, block size 4 (two trailing blocks), table `[5,6,7]`,
an 11-token sequence: the kernel table keeps `[6, 7]`, the context length is
`min(11, 8) = 8`, and the new token's slot is `7 * 4 + 2 = 30` resolved via
the full table. -/
theorem c8_witness :
    ∃ st, completionLoop (some ⟨some 8, 4, [(0, [5, 6, 7])]⟩)
        [(⟨0, 11⟩, List.replicate 11 0)] = some st ∧
      st.blockTables[0]? = some [6, 7] ∧
      st.pagedCtxLens[0]? = some 8 ∧
      st.slotMappings[0]? = some [(30 : Int)] := by
  refine ⟨_, rfl, ?_, ?_, ?_⟩
  · exact (c8_completion_sliding_window_truncation ⟨0, 11⟩ (List.replicate 11 0)
      [] ⟨some 8, 4, [(0, [5, 6, 7])]⟩ 8 [5, 6, 7] _ rfl rfl rfl).1
  · exact (c8_completion_sliding_window_truncation ⟨0, 11⟩ (List.replicate 11 0)
      [] ⟨some 8, 4, [(0, [5, 6, 7])]⟩ 8 [5, 6, 7] _ rfl rfl rfl).2.1
  · exact (c8_completion_sliding_window_truncation ⟨0, 11⟩ (List.replicate 11 0)
      [] ⟨some 8, 4, [(0, [5, 6, 7])]⟩ 8 [5, 6, 7] _ rfl rfl rfl).2.2

/-! Lemmas on the step orchestrator. -/

theorem execPreOp_ownedCache {γ : Type} (act : List String → Except String Unit)
    (op : CacheInstruction) (st st1 : CacheState γ)
    (h : execPreOp act op st = Except.ok st1) :
    st1.ownedCache = st.ownedCache := by
  cases op <;> simp only [execPreOp] at h <;>
    first
    | (split at h
       · exact absurd h (by simp)
       · simp only [Except.ok.injEq] at h
         subst h
         rfl)
    | exact absurd h (by simp)

theorem stepLoop_events_no_post_sample {γ χ L : Type}
    (act : List String → Except String Unit)
    (forward : χ → Except String (List L)) (preOp : CacheInstruction) :
    ∀ (inputs : List (Except String (χ × List Nat))) (i : Nat)
      (st : CacheState γ) (logits : List (Option L)),
      (∀ op, StepEvent.postInstr op ∉
        (stepLoop act forward preOp inputs i st logits).1) ∧
      StepEvent.sample ∉ (stepLoop act forward preOp inputs i st logits).1 := by
  intro inputs
  induction inputs with
  | nil => intro i st logits; simp [stepLoop]
  | cons c rest ih =>
    intro i st logits
    cases c with
    | error e => simp [stepLoop]
    | ok p =>
      obtain ⟨chunk, seqIdxs⟩ := p
      by_cases hi0 : i = 0
      · subst hi0
        cases hp : execPreOp act preOp st with
        | error e => simp [stepLoop, hp]
        | ok st1 =>
          cases hf : forward chunk with
          | error e => simp [stepLoop, hp, hf]
          | ok ls2 =>
            cases hs : scatterLogits logits seqIdxs ls2 with
            | none => simp [stepLoop, hp, hf, hs]
            | some logits1 =>
              have hih := ih 1 st1 logits1
              simp only [stepLoop, hp, hf, hs]
              constructor
              · intro op
                simp [hih.1 op]
              · simp [hih.2]
      · cases hf : forward chunk with
        | error e => simp [stepLoop, hi0, hf]
        | ok ls2 =>
          cases hs : scatterLogits logits seqIdxs ls2 with
          | none => simp [stepLoop, hi0, hf, hs]
          | some logits1 =>
            have hih := ih (i + 1) st logits1
            simp only [stepLoop, hi0, hf, hs]
            constructor
            · intro op
              simp [hi0, hih.1 op]
            · simp [hi0, hih.2]

theorem stepLoop_ownedCache {γ χ L : Type}
    (act : List String → Except String Unit)
    (forward : χ → Except String (List L)) (preOp : CacheInstruction) :
    ∀ (inputs : List (Except String (χ × List Nat))) (i : Nat)
      (st : CacheState γ) (logits : List (Option L)),
      (stepLoop act forward preOp inputs i st logits).2.1.ownedCache
        = st.ownedCache := by
  intro inputs
  induction inputs with
  | nil => intro i st logits; simp [stepLoop]
  | cons c rest ih =>
    intro i st logits
    cases c with
    | error e => simp [stepLoop]
    | ok p =>
      obtain ⟨chunk, seqIdxs⟩ := p
      by_cases hi0 : i = 0
      · subst hi0
        cases hp : execPreOp act preOp st with
        | error e => simp [stepLoop, hp]
        | ok st1 =>
          have howned := execPreOp_ownedCache act preOp st st1 hp
          cases hf : forward chunk with
          | error e => simp [stepLoop, hp, hf, howned]
          | ok ls2 =>
            cases hs : scatterLogits logits seqIdxs ls2 with
            | none => simp [stepLoop, hp, hf, hs, howned]
            | some logits1 =>
              simp only [stepLoop, hp, hf, hs]
              simp [ih 1 st1 logits1, howned]
      · cases hf : forward chunk with
        | error e => simp [stepLoop, hi0, hf]
        | ok ls2 =>
          cases hs : scatterLogits logits seqIdxs ls2 with
          | none => simp [stepLoop, hi0, hf, hs]
          | some logits1 =>
            simp only [stepLoop, hi0, hf, hs]
            simp [hi0, ih (i + 1) st logits1]

theorem stepLoop_ok_no_failure {γ χ L : Type}
    (act : List String → Except String Unit)
    (forward : χ → Except String (List L)) (preOp : CacheInstruction) :
    ∀ (inputs : List (Except String (χ × List Nat))) (i : Nat)
      (st : CacheState γ) (logits ls : List (Option L)),
      (stepLoop act forward preOp inputs i st logits).2.2 = Except.ok ls →
      ∀ c ∈ inputs, ¬ ChunkFailure forward c := by
  intro inputs
  induction inputs with
  | nil => intro i st logits ls _ c hc; simp at hc
  | cons c0 rest ih =>
    intro i st logits ls h c hc
    cases c0 with
    | error e => simp [stepLoop] at h
    | ok p =>
      obtain ⟨chunk, seqIdxs⟩ := p
      by_cases hi0 : i = 0
      · subst hi0
        cases hp : execPreOp act preOp st with
        | error e => simp [stepLoop, hp] at h
        | ok st1 =>
          cases hf : forward chunk with
          | error e => simp [stepLoop, hp, hf] at h
          | ok ls2 =>
            cases hs : scatterLogits logits seqIdxs ls2 with
            | none => simp [stepLoop, hp, hf, hs] at h
            | some logits1 =>
              simp only [stepLoop, hp, hf, hs] at h
              rcases List.mem_cons.mp hc with hc | hc
              · subst hc
                intro hfail
                rcases hfail with ⟨e, he⟩ | ⟨x, idxs, hx, e, he⟩
                · simp at he
                · simp only [Except.ok.injEq, Prod.mk.injEq] at hx
                  obtain ⟨hx1, _⟩ := hx
                  rw [← hx1, hf] at he
                  exact absurd he (by simp)
              · exact ih 1 st1 logits1 ls h c hc
      · cases hf : forward chunk with
        | error e => simp [stepLoop, hi0, hf] at h
        | ok ls2 =>
          cases hs : scatterLogits logits seqIdxs ls2 with
          | none => simp [stepLoop, hi0, hf, hs] at h
          | some logits1 =>
            simp only [stepLoop, hi0, hf, hs, if_neg hi0] at h
            rcases List.mem_cons.mp hc with hc | hc
            · subst hc
              intro hfail
              rcases hfail with ⟨e, he⟩ | ⟨x, idxs, hx, e, he⟩
              · simp at he
              · simp only [Except.ok.injEq, Prod.mk.injEq] at hx
                obtain ⟨hx1, _⟩ := hx
                rw [← hx1, hf] at he
                exact absurd he (by simp)
            · exact ih (i + 1) st logits1 ls h c hc

theorem stepLoop_ok_events_pos {γ χ L : Type}
    (act : List String → Except String Unit)
    (forward : χ → Except String (List L)) (preOp : CacheInstruction) :
    ∀ (chunks : List (χ × List Nat)) (i : Nat)
      (st : CacheState γ) (logits ls : List (Option L)),
      (stepLoop act forward preOp (chunks.map Except.ok) (i + 1) st logits).2.2
        = Except.ok ls →
      (stepLoop act forward preOp (chunks.map Except.ok) (i + 1) st logits).1
        = chunks.map (fun c => StepEvent.forwardPass c.1) := by
  intro chunks
  induction chunks with
  | nil => intro i st logits ls _; simp [stepLoop]
  | cons c0 rest ih =>
    intro i st logits ls h
    obtain ⟨chunk, seqIdxs⟩ := c0
    cases hf : forward chunk with
    | error e => simp [stepLoop, hf] at h
    | ok ls2 =>
      cases hs : scatterLogits logits seqIdxs ls2 with
      | none => simp [stepLoop, hf, hs] at h
      | some logits1 =>
        simp only [List.map_cons, stepLoop, hf, hs] at h ⊢
        simp only [if_neg (Nat.succ_ne_zero i)] at h ⊢
        simp [ih (i + 1) st logits1 ls (by simpa using h)]

theorem stepLoop_ok_events_zero {γ χ L : Type}
    (act : List String → Except String Unit)
    (forward : χ → Except String (List L)) (preOp : CacheInstruction)
    (chunks : List (χ × List Nat)) (st : CacheState γ)
    (logits ls : List (Option L)) (hne : chunks ≠ [])
    (h : (stepLoop act forward preOp (chunks.map Except.ok) 0 st logits).2.2
      = Except.ok ls) :
    (stepLoop act forward preOp (chunks.map Except.ok) 0 st logits).1
      = StepEvent.preInstr preOp :: chunks.map (fun c => StepEvent.forwardPass c.1) := by
  cases chunks with
  | nil => exact absurd rfl hne
  | cons c0 rest =>
    obtain ⟨chunk, seqIdxs⟩ := c0
    cases hp : execPreOp act preOp st with
    | error e => simp [stepLoop, hp] at h
    | ok st1 =>
      cases hf : forward chunk with
      | error e => simp [stepLoop, hp, hf] at h
      | ok ls2 =>
        cases hs : scatterLogits logits seqIdxs ls2 with
        | none => simp [stepLoop, hp, hf, hs] at h
        | some logits1 =>
          simp only [List.map_cons, stepLoop, hp, hf, hs] at h ⊢
          simp [stepLoop_ok_events_pos act forward preOp rest 0 st1 logits1 ls
            (by simpa using h)]

/-- C4: in a successful `DefaultInstructions` step with at least one chunk,
the pre cache instruction is executed exactly once, before the first chunk's
forward pass, and the post instruction exactly once, after the last chunk's
forward pass (and before sampling): the event trace is exactly
`pre :: forwards ++ [post, sample]`.  The cache effects are: pre-`In` restores
the sequences' owned caches into the model cache, pre-`Reset` sets the model
cache to empty, `Nothing` moves no cache state; post-`Out` persists the model
cache back into the sequences' owned storage, post-`Reset` clears the model
cache. -/
theorem c4_cache_instruction_pre_post_protocol {γ χ L : Type}
    (act : List String → Except String Unit)
    (forward : χ → Except String (List L)) (preOp postOp : CacheInstruction)
    (chunks : List (χ × List Nat)) (numSeqs : Nat) (st : CacheState γ)
    (ls : List L) (hne : chunks ≠ [])
    (hsucc : (step_default act forward preOp postOp (chunks.map Except.ok)
        numSeqs st).2.2 = Except.ok ls) :
    (step_default act forward preOp postOp (chunks.map Except.ok) numSeqs st).1
      = StepEvent.preInstr preOp
          :: chunks.map (fun c => StepEvent.forwardPass c.1)
          ++ [StepEvent.postInstr postOp, StepEvent.sample] ∧
    (∀ (s : CacheState γ) a, runAdapter act a = Except.ok () →
      execPreOp act (.In a) s = Except.ok { s with modelCache := s.ownedCache }) ∧
    (∀ (s : CacheState γ) b a, runAdapter act a = Except.ok () →
      execPreOp act (.Reset b a) s = Except.ok { s with modelCache := none }) ∧
    (∀ (s : CacheState γ) a, runAdapter act a = Except.ok () →
      execPreOp act (.Nothing a) s = Except.ok s) ∧
    (∀ s : CacheState γ,
      applyPostOp .Out s = some { s with ownedCache := s.modelCache }) ∧
    (∀ (s : CacheState γ) b a,
      applyPostOp (.Reset b a) s = some { s with modelCache := none }) ∧
    (∀ (s : CacheState γ) a, applyPostOp (.Nothing a) s = some s) := by
  refine ⟨?_, ?_, ?_, ?_, fun s => rfl, fun s b a => rfl, fun s a => rfl⟩
  · rcases hr : stepLoop act forward preOp (chunks.map Except.ok) 0 st
        (List.replicate numSeqs none) with ⟨evs, st1, res⟩
    cases res with
    | error e =>
      simp only [step_default, hr] at hsucc
      exact absurd hsucc (by simp)
    | ok logitsArr =>
      cases hc : collectLogits logitsArr with
      | none =>
        simp only [step_default, hr, hc] at hsucc
        exact absurd hsucc (by simp)
      | some ls2 =>
        cases hpost : applyPostOp postOp st1 with
        | none =>
          simp only [step_default, hr, hc, hpost] at hsucc
          exact absurd hsucc (by simp)
        | some st2 =>
          have h22 : (stepLoop act forward preOp (chunks.map Except.ok) 0 st
              (List.replicate numSeqs none)).2.2 = Except.ok logitsArr := by
            rw [hr]
          have hevs := stepLoop_ok_events_zero act forward preOp chunks st
            (List.replicate numSeqs none) logitsArr hne h22
          rw [hr] at hevs
          simp only [step_default, hr, hc, hpost]
          simp only at hevs
          simp [hevs]
  · intro s a ha
    simp [execPreOp, ha]
  · intro s b a ha
    simp [execPreOp, ha]
  · intro s a ha
    simp [execPreOp, ha]

/-- C4 witness: one chunk, `In`/`Out` instructions, a forward pass echoing the
chunk; the step succeeds and the trace is pre, forward, post, sample. -/
theorem c4_witness :
    ((step_default (γ := Nat) (fun _ => Except.ok ()) (fun c : Nat => Except.ok [c])
        (.In .None) .Out ([((3 : Nat), [0])].map Except.ok) 1
        ⟨none, some 5⟩).2.2 = Except.ok [3]) ∧
    (step_default (γ := Nat) (fun _ => Except.ok ()) (fun c : Nat => Except.ok [c])
        (.In .None) .Out ([((3 : Nat), [0])].map Except.ok) 1 ⟨none, some 5⟩).1
      = StepEvent.preInstr (.In .None)
          :: [((3 : Nat), [0])].map (fun c => StepEvent.forwardPass c.1)
          ++ [StepEvent.postInstr .Out, StepEvent.sample] := by
  refine ⟨rfl, ?_⟩
  exact (c4_cache_instruction_pre_post_protocol (γ := Nat)
    (fun _ => Except.ok ()) (fun c : Nat => Except.ok [c]) (.In .None) .Out
    [((3 : Nat), [0])] 1 ⟨none, some 5⟩ [3] (by simp) rfl).1

/-- C5: if the input construction of any chunk fails, or the model forward
pass fails on any chunk, the whole step returns an error (shared by every
sequence of the batch): nothing is handed to sampling, the post cache
instruction is never executed, and the sequences' owned caches are left
exactly as they were before the step (no partial commit). -/
theorem c5_chunk_failure_aborts_step {γ χ L : Type}
    (act : List String → Except String Unit)
    (forward : χ → Except String (List L)) (preOp postOp : CacheInstruction)
    (inputs : List (Except String (χ × List Nat))) (numSeqs : Nat)
    (st : CacheState γ)
    (hfail : ∃ c ∈ inputs, ChunkFailure forward c) :
    (∃ e, (step_default act forward preOp postOp inputs numSeqs st).2.2
      = Except.error e) ∧
    StepEvent.sample ∉ (step_default act forward preOp postOp inputs numSeqs st).1 ∧
    (∀ op, StepEvent.postInstr op ∉
      (step_default act forward preOp postOp inputs numSeqs st).1) ∧
    (step_default act forward preOp postOp inputs numSeqs st).2.1.ownedCache
      = st.ownedCache := by
  obtain ⟨c, hcmem, hcfail⟩ := hfail
  rcases hr : stepLoop act forward preOp inputs 0 st (List.replicate numSeqs none)
    with ⟨evs, st1, res⟩
  have howned : st1.ownedCache = st.ownedCache := by
    have hx := stepLoop_ownedCache act forward preOp inputs 0 st
      (List.replicate numSeqs none)
    rw [hr] at hx
    exact hx
  have hnosp := stepLoop_events_no_post_sample act forward preOp inputs 0 st
    (List.replicate numSeqs none)
  rw [hr] at hnosp
  cases res with
  | ok logitsArr =>
    have hok : (stepLoop act forward preOp inputs 0 st
        (List.replicate numSeqs none)).2.2 = Except.ok logitsArr := by
      rw [hr]
    exact absurd hcfail
      (stepLoop_ok_no_failure act forward preOp inputs 0 st _ logitsArr hok c hcmem)
  | error e =>
    simp only [step_default, hr]
    refine ⟨⟨e, rfl⟩, ?_, ?_, howned⟩
    · simpa using hnosp.2
    · intro op
      simpa using hnosp.1 op

/-- C5 witness: a step whose single chunk's input construction fails. -/
theorem c5_witness :
    (∃ e, (step_default (γ := Nat) (χ := Nat) (fun _ => Except.ok ())
        (fun c : Nat => Except.ok [c]) (.In .None) .Out
        [Except.error ("boom")] 1 ⟨none, some 5⟩).2.2 = Except.error e) ∧
    StepEvent.sample ∉ (step_default (γ := Nat) (χ := Nat) (fun _ => Except.ok ())
        (fun c : Nat => Except.ok [c]) (.In .None) .Out
        [Except.error ("boom")] 1 ⟨none, some 5⟩).1 ∧
    (step_default (γ := Nat) (χ := Nat) (fun _ => Except.ok ())
        (fun c : Nat => Except.ok [c]) (.In .None) .Out
        [Except.error ("boom")] 1 ⟨none, some 5⟩).2.1.ownedCache = some 5 := by
  have happ := c5_chunk_failure_aborts_step (γ := Nat) (χ := Nat)
    (fun _ => Except.ok ()) (fun c : Nat => Except.ok [c]) (.In .None) .Out
    [Except.error ("boom")] 1 ⟨none, some 5⟩
    ⟨Except.error ("boom"), by simp, Or.inl ⟨"boom", rfl⟩⟩
  exact ⟨happ.1, happ.2.1, happ.2.2.2⟩

/-! Lemmas on the dense cache update. -/

theorem update_window_snoc {κ : Type} (w : Nat) (hw : 0 < w) (A B : List κ)
    (a b : κ) (hAB : B.length = A.length) :
    update_kv_cache_sliding_window
        (some (A.drop (A.length - min A.length w),
               B.drop (B.length - min B.length w)))
        [a] [b] (some w)
      = ((A ++ [a]).drop ((A ++ [a]).length - min (A ++ [a]).length w),
         (B ++ [b]).drop ((B ++ [b]).length - min (B ++ [b]).length w)) := by
  unfold update_kv_cache_sliding_window
  dsimp only
  by_cases hc : A.length < w
  · have h1 : ¬ (w < (A.drop (A.length - min A.length w) ++ [a]).length) := by
      simp [List.length_drop]
      omega
    rw [if_neg h1]
    have e1 : A.length - min A.length w = 0 := by omega
    have e2 : A.length + 1 - min (A.length + 1) w = 0 := by omega
    have e3 : B.length - min B.length w = 0 := by omega
    have e4 : B.length + 1 - min (B.length + 1) w = 0 := by omega
    simp [e1, e2, e3, e4]
  · have hwle : w ≤ A.length := Nat.le_of_not_lt hc
    have h1 : w < (A.drop (A.length - min A.length w) ++ [a]).length := by
      simp [List.length_drop]
      omega
    rw [if_pos h1]
    have comp : ∀ (X : List κ) (x : κ), X.length = A.length →
        (X.drop (X.length - min X.length w) ++ [x]).drop
            ((X.drop (X.length - min X.length w) ++ [x]).length - w)
          = (X ++ [x]).drop ((X ++ [x]).length - min (X ++ [x]).length w) := by
      intro X x hX
      have hmin : min X.length w = w := by omega
      have hdl : (X.drop (X.length - w)).length = w := by
        simp [List.length_drop]
        omega
      rw [hmin]
      have hlen2 : (X.drop (X.length - w) ++ [x]).length = w + 1 := by
        simp [hdl]
      rw [hlen2]
      have hone : w + 1 - w = 1 := by omega
      rw [hone]
      rw [List.drop_append_of_le_length (by omega :
        1 ≤ (X.drop (X.length - w)).length)]
      rw [List.drop_drop]
      have hmin2 : min (X ++ [x]).length w = w := by
        simp
        omega
      rw [hmin2]
      rw [List.drop_append_of_le_length (by simp; omega :
        (X ++ [x]).length - w ≤ X.length)]
      have hidx : X.length - w + 1 = (X ++ [x]).length - w := by
        simp
        omega
      rw [hidx]
    rw [comp A a rfl, comp B b hAB]

/-- C9: for every nonempty series of forward calls each appending one (key,
value) entry through the dense cache (`update_kv_cache_sliding_window`,
starting from the empty cell), the resulting cached length is `N` with no
sliding window and `min(N, w)` with window `w ≥ 1`, and the retained content
is exactly the most recently appended `min(N, w)` entries (the oldest excess
truncated from the front). -/
theorem c9_dense_cache_append {κ : Type} (w : Nat) (hw : 0 < w)
    (entries : List (κ × κ)) (hne : entries ≠ []) :
    dense_cache_run (some w) entries =
      some ((entries.map Prod.fst).drop (entries.length - min entries.length w),
            (entries.map Prod.snd).drop (entries.length - min entries.length w)) ∧
    dense_cache_run none entries =
      some (entries.map Prod.fst, entries.map Prod.snd) ∧
    ((entries.map Prod.fst).drop
        (entries.length - min entries.length w)).length = min entries.length w ∧
    (entries.map Prod.fst).length = entries.length := by
  refine ⟨?_, ?_, ?_, by simp⟩
  · induction entries using List.reverseRecOn with
    | nil => exact absurd rfl hne
    | append_singleton ts t ih =>
      by_cases hts : ts = []
      · subst hts
        have hmin1 : min 1 w = 1 := by omega
        simp [dense_cache_run, update_kv_cache_sliding_window, hmin1]
      · have ih2 := ih hts
        have hrun : dense_cache_run (some w) (ts ++ [t]) =
            some (update_kv_cache_sliding_window (dense_cache_run (some w) ts)
              [t.1] [t.2] (some w)) := by
          simp [dense_cache_run, List.foldl_append]
        rw [hrun, ih2]
        have hl1 : (ts.map Prod.snd).length = (ts.map Prod.fst).length := by
          simp
        have hsnoc := update_window_snoc w hw (ts.map Prod.fst) (ts.map Prod.snd)
          t.1 t.2 hl1
        have hlf : (ts.map Prod.fst).length = ts.length := by simp
        have hls : (ts.map Prod.snd).length = ts.length := by simp
        rw [hlf, hls] at hsnoc
        rw [hsnoc]
        simp [List.map_append]
  · induction entries using List.reverseRecOn with
    | nil => exact absurd rfl hne
    | append_singleton ts t ih =>
      by_cases hts : ts = []
      · subst hts
        simp [dense_cache_run, update_kv_cache_sliding_window]
      · have hrun : dense_cache_run none (ts ++ [t]) =
            some (update_kv_cache_sliding_window (dense_cache_run none ts)
              [t.1] [t.2] none) := by
          simp [dense_cache_run, List.foldl_append]
        rw [hrun, ih hts]
        simp [update_kv_cache_sliding_window]
  · simp [List.length_drop]
    omega

/-- C9 witness: three single-token appends with window 2 retain the last two
entries; without a window all three are retained. -/
theorem c9_witness :
    (0 < 2) ∧ ([((1 : Nat), (10 : Nat)), (2, 20), (3, 30)] : List (Nat × Nat)) ≠ [] ∧
    dense_cache_run (some 2) [((1 : Nat), (10 : Nat)), (2, 20), (3, 30)] =
      some ([2, 3], [20, 30]) ∧
    dense_cache_run none [((1 : Nat), (10 : Nat)), (2, 20), (3, 30)] =
      some ([1, 2, 3], [10, 20, 30]) := by
  refine ⟨by decide, by decide, ?_, ?_⟩
  · exact (c9_dense_cache_append 2 (by decide) _ (by decide)).1
  · exact (c9_dense_cache_append 2 (by decide) _ (by decide)).2.1

end MistralCore
